import Mathlib

/-!
Verification development for the serverless-ts-template repository's
DynamoDB expression-construction layer: key-condition building,
collision-safe update-expression generation, reserved-word aliasing,
pagination-cursor encoding/decoding, query-parameter validation, and
query-command assembly.

Each definition is a shallow embedding of the corresponding TypeScript
function.  JavaScript strings are modelled by Lean `String`
(ASCII-compatible on every input exercised here), `undefined`-able values
by `Option`, thrown exceptions by `Except DynErr`, and JavaScript objects
by insertion-ordered association lists with last-write-wins assignment.
-/

/-- JavaScript truthiness of a string-or-undefined value:
`undefined` and the empty string are falsy. -/
def truthyS : Option String → Bool
  | none => false
  | some s => !(s == "")

/-- First-match lookup in an association list; models JavaScript property
access `obj[k]` on objects whose keys are unique. -/
def lookupA {α : Type} (m : List (String × α)) (k : String) : Option α :=
  match m.find? (fun e => e.1 == k) with
  | some e => some e.2
  | none => none

/-- JavaScript object assignment `obj[k] = v`: overwrite in place when the
key exists (keeping its position), append otherwise. -/
def setKey {α : Type} (m : List (String × α)) (k : String) (v : α) : List (String × α) :=
  if (lookupA m k).isSome then
    m.map (fun e => if e.1 == k then (k, v) else e)
  else m ++ [(k, v)]

/-- Build a JavaScript object from a list of key/value assignments applied
in order (models object-literal spread semantics). -/
def objFromList {α : Type} (l : List (String × α)) : List (String × α) :=
  l.foldl (fun acc e => setKey acc e.1 e.2) []

/-- Spread merge of two objects, the right one overriding on key
collision: models the literal `({...a, ...b})`. -/
def mergeObj {α : Type} (a b : List (String × α)) : List (String × α) :=
  objFromList (a ++ b)

/-- Leading-whitespace removal. -/
def dropLeadingWs : List Char → List Char
  | [] => []
  | c :: rest => if c.isWhitespace then dropLeadingWs rest else c :: rest

/-- Model of JavaScript `String.prototype.trim`. -/
def jsTrim (s : String) : String :=
  String.mk ((dropLeadingWs (dropLeadingWs s.data.reverse).reverse))

/-- Model of JavaScript `toLowerCase` (ASCII). -/
def jsToLower (s : String) : String := String.mk (s.data.map Char.toLower)

/-- Model of JavaScript `toUpperCase` (ASCII). -/
def jsToUpper (s : String) : String := String.mk (s.data.map Char.toUpper)

/-- Model of JavaScript `String.prototype.startsWith`. -/
def strStarts (s pre : String) : Bool := pre.data.isPrefixOf s.data

/-- Model of JavaScript `String.prototype.slice(n)` for a nonnegative
index (ASCII inputs only, so UTF-16 units coincide with characters). -/
def jsSlice (n : Nat) (s : String) : String := String.mk (s.data.drop n)

/-- Splitter worker for `jsSplit`; the fuel argument (instantiated with the
input length) only makes the recursion structural, every call supplies
enough of it. -/
def splitOnListAux (sep : List Char) : Nat → List Char → List Char → List (List Char)
  | 0, acc, cs => [acc.reverse ++ cs]
  | fuel + 1, acc, cs =>
    match cs with
    | [] => [acc.reverse]
    | c :: rest =>
      if sep ≠ [] ∧ sep.isPrefixOf cs then
        acc.reverse :: splitOnListAux sep fuel [] (cs.drop sep.length)
      else
        splitOnListAux sep fuel (c :: acc) rest

/-- Model of JavaScript `String.prototype.split` with a plain-string
separator. -/
def jsSplit (sep : String) (s : String) : List String :=
  (splitOnListAux sep.data s.data.length [] s.data).map String.mk

/-- Model of JavaScript `Array.prototype.join`. -/
def joinSep (sep : String) : List String → String
  | [] => ""
  | [x] => x
  | x :: y :: rest => x ++ sep ++ joinSep sep (y :: rest)

/-- Attribute values occurring in commands and cursors.  DynamoDB document
values are modelled by the JSON scalars exercised by the code under
verification; numbers are restricted to integers (IEEE-754 specifics are
outside this embedding). -/
inductive Val where
  | vStr : String → Val
  | vNum : Int → Val
  | vBool : Bool → Val
  | vNull : Val
deriving DecidableEq, Repr

/-- Error kinds of the expression-construction layer (§7 taxonomy).
The TypeScript code throws plain `Error`s; the spec names the kinds. -/
inductive DynErr where
  | comparatorError : String → DynErr
  | emptyUpdateError : DynErr
  | cursorError : DynErr
  | validationError : String → DynErr
deriving DecidableEq, Repr

/-! ## Decimal rendering (model of JavaScript number-to-string on integers) -/

/-- The decimal digit character for `n < 10`. -/
def digitChar (n : Nat) : Char := Char.ofNat (48 + n)

/-- Worker for `serNat`; fuel makes the recursion structural. -/
def serNatAux : Nat → Nat → List Char
  | 0, _ => []
  | fuel + 1, n =>
    if n < 10 then [digitChar n]
    else serNatAux fuel (n / 10) ++ [digitChar (n % 10)]

/-- Decimal digit list of a natural number (no leading zeros); models the
JavaScript rendering `String(n)` / template interpolation of an integer. -/
def serNat (n : Nat) : List Char := serNatAux (n + 1) n

/-- Decimal rendering of an integer. -/
def serInt : Int → List Char
  | .ofNat n => serNat n
  | .negSucc n => '-' :: serNat (n + 1)

/-- Numeric value of a digit list (digits read most-significant first). -/
def digitsToNat (ds : List Char) : Nat :=
  ds.foldl (fun a c => a * 10 + (c.toNat - 48)) 0

/-! ## Pagination cursor codec

`queryRecords` encodes the engine's `LastEvaluatedKey` with
`JSON.stringify`, and `buildQueryCommandInput` decodes the caller's
`lastEvaluatedKey` string with `JSON.parse` into `ExclusiveStartKey`.
A `LastEvaluatedKey` is a flat map from attribute names to scalar
attribute values, so the codec is embedded on that shape.  The parser
covers the whitespace-free canonical grammar that `JSON.stringify`
emits; string escaping covers the quote and backslash escapes, with
control characters rejected as `JSON.parse` does (the `\uXXXX` escape
family is outside the embedding, hence the control-character-free
validity condition on maps). -/

/-- A decoded key-attribute map (insertion-ordered, as JavaScript
objects are). -/
abbrev KeyMap := List (String × Val)

/-- JSON string-character escaping (quote and backslash). -/
def escChar (c : Char) : List Char :=
  if c = '"' ∨ c = '\\' then ['\\', c] else [c]

/-- Escape a character list for embedding in a JSON string literal. -/
def escList : List Char → List Char
  | [] => []
  | c :: cs => escChar c ++ escList cs

/-- Serialized JSON string literal. -/
def serStr (s : String) : List Char := '"' :: (escList s.data ++ ['"'])

/-- Serialized JSON scalar value. -/
def serVal : Val → List Char
  | .vStr s => serStr s
  | .vNum n => serInt n
  | .vBool true => ['t', 'r', 'u', 'e']
  | .vBool false => ['f', 'a', 'l', 's', 'e']
  | .vNull => ['n', 'u', 'l', 'l']

/-- Serialized object members, comma-separated. -/
def serEntries : KeyMap → List Char
  | [] => []
  | [(k, v)] => serStr k ++ ':' :: serVal v
  | (k, v) :: e :: rest => serStr k ++ ':' :: serVal v ++ ',' :: serEntries (e :: rest)

/-- Opening brace character (written by code point). -/
def lbrace : Char := Char.ofNat 123

/-- Closing brace character (written by code point). -/
def rbrace : Char := Char.ofNat 125

/-- `JSON.stringify` on a flat key-attribute map. -/
def encodeCursor (m : KeyMap) : String :=
  String.mk (lbrace :: (serEntries m ++ [rbrace]))

/-- The `lastEvaluatedKey` field produced by `queryRecords`:
`result.LastEvaluatedKey ? JSON.stringify(result.LastEvaluatedKey) : ''`. -/
def encodeLastEvaluatedKey : Option KeyMap → String
  | some m => encodeCursor m
  | none => ""

/-- JSON string-body parser: consumes up to the closing quote, undoing
`escChar`, rejecting raw control characters. -/
def parseStringBody : List Char → Option (List Char × List Char)
  | [] => none
  | c :: rest =>
    if c = '"' then some ([], rest)
    else if c = '\\' then
      match rest with
      | [] => none
      | e :: rest2 =>
        if e = '"' ∨ e = '\\' then
          match parseStringBody rest2 with
          | some (cs, r) => some (e :: cs, r)
          | none => none
        else none
    else if c.toNat < 32 then none
    else
      match parseStringBody rest with
      | some (cs, r) => some (c :: cs, r)
      | none => none

/-- Split a leading run of decimal digits off a character list. -/
def takeDigits : List Char → (List Char × List Char)
  | [] => ([], [])
  | c :: rest =>
    if c.isDigit then
      let p := takeDigits rest
      (c :: p.1, p.2)
    else ([], c :: rest)

/-- JSON integer parser (optional minus sign, at least one digit). -/
def parseNum (cs : List Char) : Option (Int × List Char) :=
  if cs.head? = some '-' then
    if (takeDigits cs.tail).1 = [] then none
    else some (-(digitsToNat (takeDigits cs.tail).1 : Int), (takeDigits cs.tail).2)
  else
    if (takeDigits cs).1 = [] then none
    else some ((digitsToNat (takeDigits cs).1 : Int), (takeDigits cs).2)

/-- JSON scalar-value parser. -/
def parseVal (cs : List Char) : Option (Val × List Char) :=
  if cs.head? = some '"' then
    match parseStringBody cs.tail with
    | some (b, r) => some (.vStr (String.mk b), r)
    | none => none
  else if cs.take 4 = ['t', 'r', 'u', 'e'] then some (.vBool true, cs.drop 4)
  else if cs.take 5 = ['f', 'a', 'l', 's', 'e'] then some (.vBool false, cs.drop 5)
  else if cs.take 4 = ['n', 'u', 'l', 'l'] then some (.vNull, cs.drop 4)
  else
    match parseNum cs with
    | some (n, r) => some (.vNum n, r)
    | none => none

/-- Parser for one `"key":value` object member. -/
def parseEntry (cs : List Char) : Option ((String × Val) × List Char) :=
  if cs.head? = some '"' then
    match parseStringBody cs.tail with
    | some (k, r) =>
      if r.head? = some ':' then
        match parseVal r.tail with
        | some (v, r2) => some ((String.mk k, v), r2)
        | none => none
      else none
    | none => none
  else none

/-- Parser for a nonempty comma-separated member list terminated by the
closing brace (fuel makes the recursion structural; the input length is
always enough). -/
def parseEntriesAux : Nat → List Char → Option (KeyMap × List Char)
  | 0, _ => none
  | fuel + 1, cs =>
    match parseEntry cs with
    | none => none
    | some (e, r) =>
      if r.head? = some ',' then
        match parseEntriesAux fuel r.tail with
        | some (m, r2) => some (e :: m, r2)
        | none => none
      else if r.head? = some rbrace then some ([e], r.tail)
      else none

/-- `JSON.parse` on the canonical flat-object grammar; `none` models a
thrown `SyntaxError`. -/
def parseCursor (s : String) : Option KeyMap :=
  let cs := s.data
  if cs.head? = some lbrace then
    if cs.tail.head? = some rbrace then
      if cs.tail.tail = [] then some [] else none
    else
      match parseEntriesAux cs.tail.length cs.tail with
      | some (m, []) => some m
      | _ => none
  else none

/-- The `ExclusiveStartKey` computation of `buildQueryCommandInput`:
`lastEvaluatedKey ? JSON.parse(lastEvaluatedKey) : undefined`, a parse
failure being a thrown error. -/
def decodeStartKey : Option String → Except DynErr (Option KeyMap)
  | none => .ok none
  | some s =>
    if s == "" then .ok none
    else
      match parseCursor s with
      | some m => .ok (some m)
      | none => .error .cursorError

/-- A string free of control characters (the only strings whose
`JSON.stringify` image needs no `\uXXXX`-family escapes). -/
def CtlFree (s : String) : Prop := ∀ c ∈ s.data, 32 ≤ c.toNat

instance (s : String) : Decidable (CtlFree s) := by
  unfold CtlFree; infer_instance

/-- A valid scalar attribute value: its strings are control-free. -/
def ValidVal : Val → Prop
  | .vStr s => CtlFree s
  | _ => True

instance (v : Val) : Decidable (ValidVal v) := by
  cases v <;> simp only [ValidVal] <;> infer_instance

/-- A valid key-attribute map: a finite map (unique keys) whose names and
string values are control-free. -/
def ValidKeyMap (m : KeyMap) : Prop :=
  (m.map Prod.fst).Nodup ∧ ∀ e ∈ m, CtlFree e.1 ∧ ValidVal e.2

instance (m : KeyMap) : Decidable (ValidKeyMap m) := by
  unfold ValidKeyMap; infer_instance

/-! ## Key-condition builder

Embedding of `generateKeyConditionExpression` / `getOperatorSymbolByKey`
(identical in `src/repository/dynamo/dynamo.ts`, the standalone utility
module, and `src/dynamo/utils/condition-expression.ts`). -/

/-- The seven supported sort-key operators. -/
inductive OpSym where
  | opEq | opLt | opGt | opLe | opGe | opBeginsWith | opBetween
deriving DecidableEq, Repr

/-- The switch body of `getOperatorSymbolByKey`, keyed by the
upper-cased token. -/
def opLookup : String → Except DynErr OpSym
  | "BETWEEN" => .ok .opBetween
  | "BEGINS_WITH" => .ok .opBeginsWith
  | "GREATER_THAN" => .ok .opGt
  | ">" => .ok .opGt
  | "LESS_THAN" => .ok .opLt
  | "<" => .ok .opLt
  | "GREATER_THAN_OR_EQUAL" => .ok .opGe
  | ">=" => .ok .opGe
  | "LESS_THAN_OR_EQUAL" => .ok .opLe
  | "<=" => .ok .opLe
  | "EQUAL" => .ok .opEq
  | "=" => .ok .opEq
  | op => .error (.comparatorError op)

/-- `getOperatorSymbolByKey(operation)`: upper-case the token, then map it;
unknown tokens throw (`Invalid operation key`). -/
def getOperatorSymbolByKey (operation : String) : Except DynErr OpSym :=
  opLookup (jsToUpper operation)

/-- `generateKeyConditionExpression(sortKey?, skValue2?, skComparator = '=')`.
The sort-key branch runs only under JavaScript truthiness of `sortKey`;
the partition-key equality term is always the base. -/
def generateKeyConditionExpression (sortKey skValue2 : Option String)
    (skComparator : Option String) : Except DynErr String :=
  let comp := skComparator.getD "="
  let base := "#pk = :pk"
  if truthyS sortKey then
    match getOperatorSymbolByKey comp with
    | .error e => .error e
    | .ok .opEq => .ok (base ++ " AND #sk = :sk")
    | .ok .opLt => .ok (base ++ " AND #sk < :sk")
    | .ok .opGt => .ok (base ++ " AND #sk > :sk")
    | .ok .opLe => .ok (base ++ " AND #sk <= :sk")
    | .ok .opGe => .ok (base ++ " AND #sk >= :sk")
    | .ok .opBeginsWith =>
      if truthyS sortKey then .ok (base ++ " AND begins_with(#sk, :skValue2)")
      else .error (.comparatorError "BEGINS_WITH operation requires sortKey.")
    | .ok .opBetween =>
      if truthyS sortKey && truthyS skValue2 then
        .ok (base ++ " AND #sk BETWEEN :sk AND :skValue2")
      else .error (.comparatorError "BETWEEN operation requires both sk and skValue2.")
  else .ok base

/-! ## Reserved-word aliasing

Embedding of `reserved-keywords.ts` and
`libs/dynamo/utils/expression-attribute.ts`. -/

/-- Modelled from the spec: the table file `dynamo-reserved-keywords.ts`
referenced by `reserved-keywords.ts` is absent from the sources; §2
describes it as a static set of engine-reserved tokens (~900 entries).
Entries are modelled lower-case, as forced by the projection matcher's
`RESERVED_KEYWORDS.includes(name.trim().toLowerCase())` membership test
and the module's documented examples in which `size` and `name` are
matching entries.  A representative subset suffices for every claim. -/
def RESERVED_KEYWORDS : List String :=
  ["abort", "absolute", "comment", "date", "name", "size", "status", "year"]

/-- `replaceReservedKeywordsFromProjection(projection)`: split on `', '`,
alias each component whose trimmed lower-casing is a table entry. -/
def replaceReservedKeywordsFromProjection (projection : String) : String :=
  joinSep ", " ((jsSplit ", " projection).map (fun assignment =>
    if RESERVED_KEYWORDS.contains (jsToLower (jsTrim assignment)) then "#" ++ assignment
    else assignment))

/-- Word character in the JavaScript regex sense (`\w` / `\b`). -/
def wordChar (c : Char) : Bool := c.isAlpha || c.isDigit || c = '_'

/-- The lookahead `(?=\s*=)`: zero or more whitespace then `=`. -/
def spacesThenEq : List Char → Bool
  | [] => false
  | c :: r => if c.isWhitespace then spacesThenEq r else c = '='

/-- Global-replace scanner for the regex `\bkw\b(?=\s*=)` with
replacement `#kw`: left-to-right scan, word boundaries on both sides of
the keyword, lookahead unconsumed.  Fuel (instantiated with the input
length) only makes the recursion structural. -/
def kwReplaceScan (kw : List Char) : Nat → Option Char → List Char → List Char
  | 0, _, cs => cs
  | fuel + 1, prev, cs =>
    match cs with
    | [] => []
    | c :: rest =>
      if (match prev with | none => true | some p => !wordChar p)
          && kw ≠ [] && kw.isPrefixOf cs
          && (match cs.drop kw.length with | [] => true | d :: _ => !wordChar d)
          && spacesThenEq (cs.drop kw.length) then
        '#' :: kw ++ kwReplaceScan kw fuel kw.getLast? (cs.drop kw.length)
      else c :: kwReplaceScan kw fuel (some c) rest

/-- One `assignment.replace(new RegExp('\\b' + kw + '\\b(?=\\s*=)', 'g'), '#' + kw)`. -/
def jsReplaceKwBeforeEq (kw : String) (s : String) : String :=
  String.mk (kwReplaceScan kw.data s.data.length none s.data)

/-- `replaceReservedKeywordsFromUpdateExp(updateExpression)`: split on
`', '`, run the keyword regex replacement over each assignment for every
table entry, rejoin. -/
def replaceReservedKeywordsFromUpdateExp (updateExpression : String) : String :=
  joinSep ", " ((jsSplit ", " updateExpression).map (fun assignment =>
    RESERVED_KEYWORDS.foldl (fun a kw => jsReplaceKwBeforeEq kw a) assignment))

/-- Remove the first occurrence of a character; models
`String.prototype.replace` with a single-character string pattern and an
empty replacement. -/
def removeFirstChar (target : Char) : List Char → List Char
  | [] => []
  | c :: cs => if c = target then cs else c :: removeFirstChar target cs

/-- `extractExpAttributeNamesFromString(projectionExpression)`: split on
`','`, trim, keep the `#`-prefixed aliases, and map each alias to the
alias with its first `#` removed. -/
def extractExpAttributeNamesFromString (projectionExpression : String) : List (String × String) :=
  let kws := ((jsSplit "," projectionExpression).map jsTrim).filter (fun a => strStarts a "#")
  kws.foldl (fun acc kw => setKey acc kw (String.mk (removeFirstChar '#' kw.data))) []

/-- `extractExpAttributeNamesFromUpdate(expression)`: drop a leading
`SET ` marker (by slicing three characters off the original string, a
quirk kept faithfully), split into assignments, and register each
`#`-prefixed left-hand side with its `#` stripped.  The source splits on
the regex `/\s*,\s*/`; splitting on `','` is extensionally equal here
because each left-hand side is trimmed before use. -/
def extractExpAttributeNamesFromUpdate (expression : String) : List (String × String) :=
  let e := if strStarts (jsToUpper (jsTrim expression)) "SET " then jsTrim (jsSlice 3 expression)
    else expression
  (jsSplit "," e).foldl (fun acc assignment =>
    let attributeName := jsTrim ((jsSplit "=" assignment).headD "")
    if strStarts attributeName "#" then
      setKey acc attributeName (jsSlice 1 attributeName)
    else acc) []

/-! ## Update-command builder

Embedding of `buildUpdateCommandInput` from
`src/dynamo/command/query-command.ts` (the collision-safe generator with
the empty-update guard; the legacy copy in `updated-command.ts` predates
both and is superseded). -/

/-- The candidate placeholder tried at loop counter `n`: `:field` first,
then `:field_update_n`. -/
def mkAttrKey (field : String) : Nat → String
  | 0 => ":" ++ field
  | n + 1 => ":" ++ field ++ "_update_" ++ String.mk (serNat (n + 1))

/-- The collision-avoidance `while` loop: starting at counter 0, advance
while the candidate key is already bound in the externally-supplied value
map.  Fuel (instantiated with one more than the map size) only makes the
recursion structural; the loop always stops within that bound. -/
def resolveAttributeKey (merged : List (String × Val)) (field : String) :
    Nat → Nat → String
  | 0, counter => mkAttrKey field counter
  | fuel + 1, counter =>
    if (lookupA merged (mkAttrKey field counter)).isSome then
      resolveAttributeKey merged field fuel (counter + 1)
    else mkAttrKey field counter

/-- The generated placeholder for one entity field. -/
def genKey (merged : List (String × Val)) (field : String) : String :=
  resolveAttributeKey merged field (merged.length + 1) 0

/-- The generation loop over `Object.entries(item)`: collects the SET
clause parts `field = placeholder` and the dynamic placeholder→value
object (later assignments overwriting earlier ones, as in JavaScript). -/
def buildUpdateParts (merged : List (String × Val)) (item : List (String × Val)) :
    List String × List (String × Val) :=
  item.foldl (fun acc fv =>
    (acc.1 ++ [fv.1 ++ " = " ++ genKey merged fv.1],
     setKey acc.2 (genKey merged fv.1) fv.2)) ([], [])

/-- Input shape `CustomUpdateItemInput` (fields relevant to expression
construction; key/table/return-value passthroughs omitted). -/
structure UpdateCmdInput where
  item : Option (List (String × Val))
  updateExpression : Option String
  expressionAttributeNames : List (String × String)
  extraExpAttributeNames : List (String × String)
  expressionAttributeValues : List (String × Val)
  extraExpressionAttributeValues : List (String × Val)
deriving DecidableEq, Repr

/-- Output shape `UpdateCommandInput` (expression-relevant fields). -/
structure UpdateCmd where
  updateExpression : String
  expressionAttributeNames : Option (List (String × String))
  expressionAttributeValues : Option (List (String × Val))
deriving DecidableEq, Repr

/-- `buildUpdateCommandInput(input)`: pass an explicit (truthy) update
expression through with merged maps; otherwise require a nonempty `item`,
generate the collision-safe SET clause, alias reserved words, and merge
the attribute maps, omitting empty ones. -/
def buildUpdateCommandInput (inp : UpdateCmdInput) : Except DynErr UpdateCmd :=
  let mergedNames := mergeObj inp.expressionAttributeNames inp.extraExpAttributeNames
  let mergedValues := mergeObj inp.expressionAttributeValues inp.extraExpressionAttributeValues
  if truthyS inp.updateExpression then
    .ok { updateExpression := inp.updateExpression.getD "",
          expressionAttributeNames := if mergedNames.length ≠ 0 then some mergedNames else none,
          expressionAttributeValues := if mergedValues.length ≠ 0 then some mergedValues else none }
  else
    match inp.item with
    | none => .error .emptyUpdateError
    | some item =>
      if item.length = 0 then .error .emptyUpdateError
      else
        let parts := (buildUpdateParts mergedValues item).1
        let dynamicValues := (buildUpdateParts mergedValues item).2
        let ue := replaceReservedKeywordsFromUpdateExp ("SET " ++ joinSep ", " parts)
        let finalNames := mergeObj (extractExpAttributeNamesFromUpdate ue) mergedNames
        let finalValues := mergeObj mergedValues dynamicValues
        .ok { updateExpression := ue,
              expressionAttributeNames := if finalNames.length ≠ 0 then some finalNames else none,
              expressionAttributeValues := if finalValues.length ≠ 0 then some finalValues else none }

/-! ## Query-request shape and query-command builder -/

/-- The structured query request (`QueryRequest` of
`src/dynamo/types/query.types.ts`): every field a string-or-undefined at
runtime; the zod schema decides which must be present. -/
structure QueryReq where
  pKey : Option String
  pKeyType : Option String
  pKeyProp : Option String
  sKey : Option String
  sKeyType : Option String
  sKeyProp : Option String
  skValue2 : Option String
  skValue2Type : Option String
  skComparator : Option String
  indexName : Option String
  limit : Option String
  lastEvaluatedKey : Option String
  sorting : Option String
deriving DecidableEq, Repr

/-- Input shape `CustomQueryCommandInput` (expression-relevant fields). -/
structure QueryCmdInput where
  tableName : String
  queryRequest : QueryReq
  projectionExpression : Option String
  scanIdxForward : Option Bool
  filterExpression : Option String
deriving DecidableEq, Repr

/-- Output shape `QueryCommandInput` as assembled by the builder.  The
scan-direction flag is a mandatory boolean: the builder always sets it.
The attribute name/value maps and the numeric limit pass through the
typed-value codec and JavaScript number coercion, which no claim
concerns; they are left out of the embedding. -/
structure QueryCmd where
  tableName : String
  indexName : Option String
  keyConditionExpression : String
  projectionExpression : Option String
  scanIndexForward : Bool
  filterExpression : Option String
  exclusiveStartKey : Option KeyMap
deriving DecidableEq, Repr

/-- `buildQueryCommandInput(input)`: generate the key condition, alias the
projection, decode the pagination cursor, and resolve the scan direction
(`sorting !== undefined ? sorting === 'asc' : scanIdxForward !== false`). -/
def buildQueryCommandInput (inp : QueryCmdInput) : Except DynErr QueryCmd :=
  match generateKeyConditionExpression inp.queryRequest.sKey inp.queryRequest.skValue2
      inp.queryRequest.skComparator with
  | .error e => .error e
  | .ok kce =>
    match decodeStartKey inp.queryRequest.lastEvaluatedKey with
    | .error e => .error e
    | .ok esk =>
      .ok { tableName := inp.tableName,
            indexName := inp.queryRequest.indexName,
            keyConditionExpression := kce,
            projectionExpression :=
              if truthyS inp.projectionExpression then
                some (replaceReservedKeywordsFromProjection (inp.projectionExpression.getD ""))
              else none,
            scanIndexForward :=
              match inp.queryRequest.sorting with
              | some s => s == "asc"
              | none => !(inp.scanIdxForward == some false),
            filterExpression := inp.filterExpression,
            exclusiveStartKey := esk }

/-! ## Request validator

Embedding of the current `extractQueryParamsFromEvent` of
`src/dynamo/utils/query-parsing.ts` with its helpers `normalizeQS` and
`parseOrThrow`, validating against `queryRequestSchema` of
`src/dynamo/types/query.types.ts`. -/

/-- Model of JavaScript `Number(s)` restricted to optionally-signed
decimal integer literals; `none` models `NaN`.  (Fractional and
exponential literals are outside the embedding; the validator only feeds
this integral limits.) -/
def jsNumberInt (s : String) : Option Int :=
  match s.data with
  | '-' :: rest =>
    if rest ≠ [] ∧ (takeDigits rest).2 = [] then some (-(digitsToNat (takeDigits rest).1 : Int))
    else none
  | cs =>
    if cs ≠ [] ∧ (takeDigits cs).2 = [] then some ((digitsToNat (takeDigits cs).1 : Int))
    else none

/-- Decimal rendering of an integer as a string. -/
def intToString (n : Int) : String := String.mk (serInt n)

/-- The limit clamp of `normalizeQS`: when the limit value is present and
numeric, replace it with `String(Math.max(1, Math.min(100, n)))`. -/
def clampLimit : Option String → Option String
  | none => none
  | some s =>
    match jsNumberInt s with
    | some n => some (intToString (max 1 (min 100 n)))
    | none => some s

/-- The sorting normalization of `normalizeQS`: lower-case, and keep only
`asc`/`desc`. -/
def normSorting : Option String → Option String
  | none => none
  | some s =>
    let l := jsToLower s
    if l == "asc" ∨ l == "desc" then some l else none

/-- `normalizeQS(qs)`: trim every value, turn blanks into `undefined`,
clamp `limit`, normalize `sorting`.  Keys are preserved (a JavaScript
object keeps a key whose value is set to `undefined`). -/
def normalizeQS (qs : List (String × String)) : List (String × Option String) :=
  (qs.map (fun e =>
    (e.1, if jsTrim e.2 == "" then (none : Option String) else some (jsTrim e.2)))).map
    (fun e =>
      if e.1 == "limit" then (e.1, clampLimit e.2)
      else if e.1 == "sorting" then (e.1, normSorting e.2)
      else e)

/-- Property access on the normalized query-string object. -/
def getQS (qp : List (String × Option String)) (k : String) : Option String :=
  match qp.find? (fun e => e.1 == k) with
  | some e => e.2
  | none => none

/-- `Boolean(queryParams.pKey && queryParams.pKey.length > 0)`. -/
def hasNonEmptyPKey (qp : List (String × Option String)) : Bool :=
  match getQS qp "pKey" with
  | some s => s.length > 0
  | none => false

/-- The case-2 test: the parameters are exactly a truthy `limit` and/or a
truthy `sorting`. -/
def isOnlyLimitOrSorting (qp : List (String × Option String)) : Bool :=
  ((qp.map Prod.fst).length == 1 && (truthyS (getQS qp "limit") || truthyS (getQS qp "sorting")))
    || ((qp.map Prod.fst).length == 2 && truthyS (getQS qp "limit") && truthyS (getQS qp "sorting"))

/-- `queryRequestSchema`: `pKey`, `pKeyType`, `pKeyProp` are required
strings, everything else optional, refined by: a truthy `skComparator`
requires truthy `sKey`, `sKeyProp` and `sKeyType`. -/
def queryRequestSchemaCheck (q : QueryReq) : Bool :=
  q.pKey.isSome && q.pKeyType.isSome && q.pKeyProp.isSome &&
    (!truthyS q.skComparator || (truthyS q.sKey && truthyS q.sKeyProp && truthyS q.sKeyType))

/-- `parseOrThrow(candidate, prefix)`: validate, returning the candidate
unchanged on success and a `ValidationError` otherwise. -/
def parseOrThrow (q : QueryReq) (msg : String) : Except DynErr QueryReq :=
  if queryRequestSchemaCheck q then .ok q else .error (.validationError msg)

/-- The case-2 candidate: the default request with truthy raw `limit` and
`sorting` overlaid. -/
def case2Candidate (qp : List (String × Option String)) (query : QueryReq) : QueryReq :=
  { query with
    limit := if truthyS (getQS qp "limit") then getQS qp "limit" else query.limit,
    sorting := if truthyS (getQS qp "sorting") then getQS qp "sorting" else query.sorting }

/-- The case-3 candidate: the default's index and partition-key triple,
raw-else-default for the sort-key, range, comparator, pagination and
sorting fields, and the `'20'` terminal fallback for the limit. -/
def case3Candidate (qp : List (String × Option String)) (query : QueryReq) : QueryReq :=
  { indexName := query.indexName,
    pKey := query.pKey,
    pKeyType := query.pKeyType,
    pKeyProp := query.pKeyProp,
    limit := ((getQS qp "limit").orElse (fun _ => query.limit)).orElse (fun _ => some "20"),
    sKey := (getQS qp "sKey").orElse (fun _ => query.sKey),
    sKeyType := (getQS qp "sKeyType").orElse (fun _ => query.sKeyType),
    sKeyProp := (getQS qp "sKeyProp").orElse (fun _ => query.sKeyProp),
    skValue2 := (getQS qp "skValue2").orElse (fun _ => query.skValue2),
    skValue2Type := (getQS qp "skValue2Type").orElse (fun _ => query.skValue2Type),
    skComparator := (getQS qp "skComparator").orElse (fun _ => query.skComparator),
    lastEvaluatedKey := (getQS qp "lastEvaluatedKey").orElse (fun _ => query.lastEvaluatedKey),
    sorting := (getQS qp "sorting").orElse (fun _ => query.sorting) }

/-- The case-4 candidate: built from the raw parameters alone, with the
default's index name as fallback, the `'20'` limit fallback, and optional
fields included only when truthy. -/
def case4Candidate (qp : List (String × Option String)) (query : QueryReq) : QueryReq :=
  { indexName := (getQS qp "index").orElse (fun _ => query.indexName),
    pKey := getQS qp "pKey",
    pKeyType := getQS qp "pKeyType",
    pKeyProp := getQS qp "pKeyProp",
    limit := (getQS qp "limit").orElse (fun _ => some "20"),
    sKey := if truthyS (getQS qp "sKey") then getQS qp "sKey" else none,
    sKeyType := if truthyS (getQS qp "sKeyType") then getQS qp "sKeyType" else none,
    sKeyProp := if truthyS (getQS qp "sKeyProp") then getQS qp "sKeyProp" else none,
    skValue2 := if truthyS (getQS qp "skValue2") then getQS qp "skValue2" else none,
    skValue2Type := if truthyS (getQS qp "skValue2Type") then getQS qp "skValue2Type" else none,
    skComparator := if truthyS (getQS qp "skComparator") then getQS qp "skComparator" else none,
    lastEvaluatedKey := if truthyS (getQS qp "lastEvaluatedKey") then getQS qp "lastEvaluatedKey" else none,
    sorting := if truthyS (getQS qp "sorting") then getQS qp "sorting" else none }

/-- `extractQueryParamsFromEvent(event, query)` (current version): the
four-case resolution policy over the normalized query-string parameters. -/
def extractQueryParamsFromEvent (rawQS : Option (List (String × String)))
    (query : QueryReq) : Except DynErr QueryReq :=
  let raw := rawQS.getD []
  let qp := normalizeQS raw
  if qp.length = 0 then parseOrThrow query "Invalid default query!"
  else if isOnlyLimitOrSorting qp then parseOrThrow (case2Candidate qp query) "Bad request!"
  else if !hasNonEmptyPKey qp && (getQS qp "index" == query.indexName) then
    parseOrThrow (case3Candidate qp query) "Bad request!"
  else parseOrThrow (case4Candidate qp query) "Bad request!"


/-! ## Additional definitions used by the theorems -/

instance {ε α : Type} [DecidableEq ε] [DecidableEq α] : DecidableEq (Except ε α) := by
  intro a b
  cases a with
  | error e =>
    cases b with
    | error f => exact decidable_of_iff (e = f) (by constructor <;> (intro h; cases h; rfl))
    | ok y => exact .isFalse (by intro h; cases h)
  | ok x =>
    cases b with
    | error f => exact .isFalse (by intro h; cases h)
    | ok y => exact decidable_of_iff (x = y) (by constructor <;> (intro h; cases h; rfl))

/-- The next character (if any) is not a decimal digit, so a greedy digit
scan stops exactly here. -/
def headNotDigit : List Char → Bool
  | [] => true
  | c :: _ => !c.isDigit

/-- Per-entry validity of a key map. -/
def ValidEntries (m : KeyMap) : Prop := ∀ e ∈ m, CtlFree e.1 ∧ ValidVal e.2

/-- A concrete default query request exercising validator case 3. -/
def c9Default : QueryReq :=
  { pKey := some "P", pKeyType := some "S", pKeyProp := some "pk",
    sKey := none, sKeyType := none, sKeyProp := none,
    skValue2 := none, skValue2Type := none, skComparator := none,
    indexName := some "gsi1", limit := none, lastEvaluatedKey := none,
    sorting := none }

/-- The validated result of case 3 on `c9Default` with raw parameters
naming only the matching index and a sort key. -/
def c9Result : QueryReq :=
  { pKey := some "P", pKeyType := some "S", pKeyProp := some "pk",
    sKey := some "ORDER", sKeyType := none, sKeyProp := none,
    skValue2 := none, skValue2Type := none, skComparator := none,
    indexName := some "gsi1", limit := some "20", lastEvaluatedKey := none,
    sorting := none }

/-! ## Claim C2–C5: key-condition builder theorems -/


theorem except_ok_inj {ε α : Type} {a b : α} (h : (Except.ok a : Except ε α) = .ok b) : a = b := by
  cases h; rfl

/-- C2: every successfully built key-condition expression begins with the
partition-key equality term `#pk = :pk`; with a (truthy) sort-key value
and an equals comparator (or no comparator, equals being the default) the
result is exactly `#pk = :pk AND #sk = :sk`; with no sort-key value the
result is exactly `#pk = :pk`. -/
theorem keyCondition_base_and_equals (sortKey skValue2 skComparator : Option String) :
    (∀ res, generateKeyConditionExpression sortKey skValue2 skComparator = .ok res →
      ∃ suffix, res = "#pk = :pk" ++ suffix)
    ∧ (truthyS sortKey = true →
        getOperatorSymbolByKey (skComparator.getD "=") = .ok .opEq →
        generateKeyConditionExpression sortKey skValue2 skComparator =
          .ok "#pk = :pk AND #sk = :sk")
    ∧ (truthyS sortKey = false →
        generateKeyConditionExpression sortKey skValue2 skComparator = .ok "#pk = :pk") := by
  refine ⟨?_, ?_, ?_⟩
  · intro res h
    unfold generateKeyConditionExpression at h
    by_cases ht : truthyS sortKey
    · rw [if_pos ht] at h
      split at h
      · cases h
      all_goals
        first
          | exact ⟨_, (except_ok_inj h).symm⟩
          | (rw [if_pos ht] at h; exact ⟨_, (except_ok_inj h).symm⟩)
          | (split at h
             · exact ⟨_, (except_ok_inj h).symm⟩
             · cases h)
    · rw [if_neg ht] at h
      exact ⟨"", (except_ok_inj h).symm⟩
  · intro ht hop
    unfold generateKeyConditionExpression
    rw [if_pos ht, hop]
    rfl
  · intro ht
    unfold generateKeyConditionExpression
    rw [if_neg (by simp [ht])]

/-- C2 witness: the theorem applied at a concrete request with sort key
`"ORDER#1"` and no comparator. -/
theorem keyCondition_base_and_equals_witness :
    generateKeyConditionExpression (some "ORDER#1") none none = .ok "#pk = :pk AND #sk = :sk"
    ∧ generateKeyConditionExpression none none none = .ok "#pk = :pk"
    ∧ (∃ suffix, "#pk = :pk AND #sk = :sk" = "#pk = :pk" ++ suffix) :=
  ⟨(keyCondition_base_and_equals (some "ORDER#1") none none).2.1 (by decide) (by decide),
   (keyCondition_base_and_equals none none none).2.2 (by decide),
   (keyCondition_base_and_equals (some "ORDER#1") none none).1 _
     ((keyCondition_base_and_equals (some "ORDER#1") none none).2.1 (by decide) (by decide))⟩

/-- C3 counterexample: with comparator `begins_with` and no sort-key
value, the builder does not fail with a `ComparatorError`; the sort-key
guard skips the comparator switch and the partition-key-only expression
is returned. -/
theorem keyCondition_beginsWith_cex :
    getOperatorSymbolByKey "begins_with" = .ok .opBeginsWith
    ∧ generateKeyConditionExpression none none (some "begins_with") = .ok "#pk = :pk" := by
  constructor
  · rfl
  · rfl

/-- C3 (amended): with comparator begins-with and a truthy sort-key value
the result is exactly `#pk = :pk AND begins_with(#sk, :skValue2)`; with
no (truthy) sort-key value the comparator switch is skipped and the
partition-key-only expression `#pk = :pk` is returned (the internal
missing-sort-key check is unreachable). -/
theorem keyCondition_beginsWith (sortKey skValue2 skComparator : Option String)
    (hcmp : getOperatorSymbolByKey (skComparator.getD "=") = .ok .opBeginsWith) :
    (truthyS sortKey = true →
      generateKeyConditionExpression sortKey skValue2 skComparator =
        .ok "#pk = :pk AND begins_with(#sk, :skValue2)")
    ∧ (truthyS sortKey = false →
      generateKeyConditionExpression sortKey skValue2 skComparator = .ok "#pk = :pk") := by
  constructor
  · intro ht
    simp only [generateKeyConditionExpression, hcmp, ht, if_true]
    rfl
  · intro ht
    simp only [generateKeyConditionExpression, ht, Bool.false_eq_true, if_false]

/-- C3 witness: the theorem applied at sort key `"ORDER#"` and comparator
`"begins_with"`. -/
theorem keyCondition_beginsWith_witness :
    generateKeyConditionExpression (some "ORDER#") none (some "begins_with") =
      .ok "#pk = :pk AND begins_with(#sk, :skValue2)" :=
  (keyCondition_beginsWith (some "ORDER#") none (some "begins_with") (by rfl)).1 (by decide)

/-- C4 counterexample: with comparator `between` and a missing sort-key
value (second range value supplied), the builder does not fail with a
`ComparatorError`: the sort-key guard skips the comparator switch. -/
theorem keyCondition_between_cex :
    getOperatorSymbolByKey "between" = .ok .opBetween
    ∧ generateKeyConditionExpression none (some "B") (some "between") = .ok "#pk = :pk" := by
  constructor
  · rfl
  · rfl

/-- C4 (amended): with comparator between and truthy sort-key and second
range values the builder appends ` AND #sk BETWEEN :sk AND :skValue2`;
with a truthy sort-key value but a missing second value it fails with a
`ComparatorError`; with no (truthy) sort-key value the comparator switch
is skipped and `#pk = :pk` is returned. -/
theorem keyCondition_between (sortKey skValue2 skComparator : Option String)
    (hcmp : getOperatorSymbolByKey (skComparator.getD "=") = .ok .opBetween) :
    (truthyS sortKey = true → truthyS skValue2 = true →
      generateKeyConditionExpression sortKey skValue2 skComparator =
        .ok ("#pk = :pk" ++ " AND #sk BETWEEN :sk AND :skValue2"))
    ∧ (truthyS sortKey = true → truthyS skValue2 = false →
      generateKeyConditionExpression sortKey skValue2 skComparator =
        .error (.comparatorError "BETWEEN operation requires both sk and skValue2."))
    ∧ (truthyS sortKey = false →
      generateKeyConditionExpression sortKey skValue2 skComparator = .ok "#pk = :pk") := by
  refine ⟨?_, ?_, ?_⟩
  · intro ht hv
    simp only [generateKeyConditionExpression, hcmp, ht, hv, Bool.and_self, if_true]
  · intro ht hv
    simp only [generateKeyConditionExpression, hcmp, ht, hv, Bool.and_false, Bool.false_eq_true,
      if_false, if_true]
  · intro ht
    simp only [generateKeyConditionExpression, ht, Bool.false_eq_true, if_false]

/-- C4 witness: the theorem applied at concrete between-queries with and
without the second range value. -/
theorem keyCondition_between_witness :
    generateKeyConditionExpression (some "A") (some "B") (some "between") =
      .ok ("#pk = :pk" ++ " AND #sk BETWEEN :sk AND :skValue2")
    ∧ generateKeyConditionExpression (some "A") none (some "between") =
      .error (.comparatorError "BETWEEN operation requires both sk and skValue2.") :=
  ⟨(keyCondition_between (some "A") (some "B") (some "between") (by rfl)).1 (by decide) (by decide),
   (keyCondition_between (some "A") none (some "between") (by rfl)).2.1 (by decide) (by decide)⟩

/-- C5 counterexample: for the unrecognized comparator token `"FOO"` with
no sort-key value supplied, building does not fail: the sort-key guard
skips the comparator switch and `#pk = :pk` is returned. -/
theorem comparator_unknown_cex :
    getOperatorSymbolByKey "FOO" = .error (.comparatorError "FOO")
    ∧ generateKeyConditionExpression none none (some "FOO") = .ok "#pk = :pk" := by
  constructor
  · rfl
  · rfl

/-- C5 (amended): the comparator token is mapped case-insensitively (the
mapping depends only on the upper-cased token) onto the seven supported
operators, whose twelve accepted spellings are listed; for every token
outside that set the builder fails with a `ComparatorError` whenever a
truthy sort-key value is supplied, and returns the partition-key-only
expression `#pk = :pk` (never inspecting the comparator) when it is not. -/
theorem comparator_resolution :
    (∀ s t : String, jsToUpper s = jsToUpper t →
      getOperatorSymbolByKey s = getOperatorSymbolByKey t)
    ∧ (∀ (s : String) (op : OpSym), getOperatorSymbolByKey s = .ok op →
      jsToUpper s ∈ ["BETWEEN", "BEGINS_WITH", "GREATER_THAN", ">", "LESS_THAN", "<",
        "GREATER_THAN_OR_EQUAL", ">=", "LESS_THAN_OR_EQUAL", "<=", "EQUAL", "="])
    ∧ (∀ (s : String) (e : DynErr) (sortKey skValue2 : Option String),
      getOperatorSymbolByKey s = .error e → truthyS sortKey = true →
      generateKeyConditionExpression sortKey skValue2 (some s) = .error e)
    ∧ (∀ (s : String) (e : DynErr) (sortKey skValue2 : Option String),
      getOperatorSymbolByKey s = .error e → truthyS sortKey = false →
      generateKeyConditionExpression sortKey skValue2 (some s) = .ok "#pk = :pk") := by
  refine ⟨?_, ?_, ?_, ?_⟩
  · intro s t h
    unfold getOperatorSymbolByKey
    rw [h]
  · intro s op h
    unfold getOperatorSymbolByKey at h
    unfold opLookup at h
    split at h <;> simp_all
  · intro s e sortKey skValue2 hop ht
    simp only [generateKeyConditionExpression, Option.getD_some, hop, ht, if_true]
  · intro s e sortKey skValue2 hop ht
    simp only [generateKeyConditionExpression, ht, Bool.false_eq_true, if_false]

/-- C5 witness: case-insensitive resolution of `BeTwEeN`, coverage of
`begins_with`, and the unknown token `FOO` with and without a sort key. -/
theorem comparator_resolution_witness :
    getOperatorSymbolByKey "BeTwEeN" = getOperatorSymbolByKey "between"
    ∧ jsToUpper "begins_with" ∈ ["BETWEEN", "BEGINS_WITH", "GREATER_THAN", ">", "LESS_THAN", "<",
        "GREATER_THAN_OR_EQUAL", ">=", "LESS_THAN_OR_EQUAL", "<=", "EQUAL", "="]
    ∧ generateKeyConditionExpression (some "A") none (some "FOO") =
        .error (.comparatorError "FOO")
    ∧ generateKeyConditionExpression none none (some "FOO") = .ok "#pk = :pk" :=
  ⟨comparator_resolution.1 "BeTwEeN" "between" (by rfl),
   comparator_resolution.2.1 "begins_with" .opBeginsWith (by rfl),
   comparator_resolution.2.2.1 "FOO" (.comparatorError "FOO") (some "A") none (by rfl) (by decide),
   comparator_resolution.2.2.2 "FOO" (.comparatorError "FOO") none none (by rfl) (by decide)⟩

/-- C10: every assembled query command carries an explicit scan-direction
boolean (`scanIndexForward` is a mandatory field of the result): it
equals `sorting == 'asc'` whenever a sorting value is supplied (even an
empty one, taking precedence over `scanIdxForward`), and otherwise is
`true` unless the caller passed `scanIdxForward` as exactly `false`, so
the order defaults to ascending when neither input is supplied. -/
theorem scanIndexForward_policy (inp : QueryCmdInput) (cmd : QueryCmd)
    (h : buildQueryCommandInput inp = .ok cmd) :
    cmd.scanIndexForward =
      (match inp.queryRequest.sorting with
       | some s => s == "asc"
       | none => !(inp.scanIdxForward == some false)) := by
  unfold buildQueryCommandInput at h
  split at h
  · cases h
  · split at h
    · cases h
    · rw [← except_ok_inj h]

/-- C10 witness: the theorem applied to a concrete command built with
neither `sorting` nor `scanIdxForward`, whose scan flag is `true`. -/
theorem scanIndexForward_policy_witness :
    ({ tableName := "T",
       indexName := none,
       keyConditionExpression := "#pk = :pk",
       projectionExpression := none,
       scanIndexForward := true,
       filterExpression := none,
       exclusiveStartKey := none } : QueryCmd).scanIndexForward = true :=
  scanIndexForward_policy
    { tableName := "T",
      queryRequest :=
        { pKey := some "P", pKeyType := some "S", pKeyProp := some "pk",
          sKey := none, sKeyType := none, sKeyProp := none,
          skValue2 := none, skValue2Type := none, skComparator := none,
          indexName := none, limit := none, lastEvaluatedKey := none, sorting := none },
      projectionExpression := none, scanIdxForward := none, filterExpression := none }
    _ (by rfl)

/-- C7: building an update command with no (truthy) explicit update
expression and no entity fields — the partial entity absent or empty —
fails with an `EmptyUpdateError`, so no command (in particular none with
an empty SET clause) is produced. -/
theorem emptyUpdate_fails (inp : UpdateCmdInput)
    (hue : truthyS inp.updateExpression = false)
    (hitem : inp.item = none ∨ inp.item = some []) :
    buildUpdateCommandInput inp = .error .emptyUpdateError := by
  unfold buildUpdateCommandInput
  rcases hitem with h | h <;>
    simp [hue, h]

/-- C7 witness: the theorem applied at the two concrete degenerate
inputs. -/
theorem emptyUpdate_fails_witness :
    buildUpdateCommandInput
      { item := none, updateExpression := none,
        expressionAttributeNames := [], extraExpAttributeNames := [],
        expressionAttributeValues := [], extraExpressionAttributeValues := [] } =
      .error .emptyUpdateError
    ∧ buildUpdateCommandInput
      { item := some [], updateExpression := none,
        expressionAttributeNames := [], extraExpAttributeNames := [],
        expressionAttributeValues := [], extraExpressionAttributeValues := [] } =
      .error .emptyUpdateError :=
  ⟨emptyUpdate_fails _ (by decide) (Or.inl rfl),
   emptyUpdate_fails _ (by decide) (Or.inr rfl)⟩

/-- C8 counterexample: `Size` on the left-hand side of an update
assignment matches the table entry `size` case-insensitively, yet the
update-expression replacement leaves it unaliased — the regex matching
there is case-sensitive over the lower-case table, refuting the claimed
case-insensitive aliasing for update assignments. -/
theorem reservedAlias_update_case_cex :
    "size" ∈ RESERVED_KEYWORDS
    ∧ jsToLower "Size" = "size"
    ∧ replaceReservedKeywordsFromUpdateExp "SET Size = :size" = "SET Size = :size" := by
  refine ⟨by decide, by rfl, by rfl⟩

/-- C8 (amended): projection-list aliasing is case-insensitive — a
component whose trimmed lower-casing is a table entry is replaced by its
`#`-prefixed alias and every other component passes through unaliased —
and the alias→rawName pair is registered by the extraction; aliasing of
update-assignment left-hand sides, by contrast, matches the (lower-case)
table entries case-sensitively: `size = :size` is aliased to
`#size = :size` while mixed-case `Size` is left unchanged. -/
theorem reservedAlias_behaviour :
    (∀ name : String, jsSplit ", " name = [name] →
      RESERVED_KEYWORDS.contains (jsToLower (jsTrim name)) = true →
      replaceReservedKeywordsFromProjection name = "#" ++ name)
    ∧ (∀ name : String, jsSplit ", " name = [name] →
      RESERVED_KEYWORDS.contains (jsToLower (jsTrim name)) = false →
      replaceReservedKeywordsFromProjection name = name)
    ∧ replaceReservedKeywordsFromProjection "size, color, SIZE" = "#size, color, #SIZE"
    ∧ extractExpAttributeNamesFromString "#size, color" = [("#size", "size")]
    ∧ replaceReservedKeywordsFromUpdateExp "SET size = :size, color = :color" =
        "SET #size = :size, color = :color"
    ∧ replaceReservedKeywordsFromUpdateExp "SET Size = :size" = "SET Size = :size"
    ∧ extractExpAttributeNamesFromUpdate "SET #size = :size, color = :c" = [("#size", "size")] := by
  refine ⟨?_, ?_, by rfl, by rfl, by rfl, by rfl, by rfl⟩
  · intro name hsplit hres
    have hm : jsToLower (jsTrim name) ∈ RESERVED_KEYWORDS := by simpa using hres
    unfold replaceReservedKeywordsFromProjection
    rw [hsplit]
    simp [joinSep, hm]
  · intro name hsplit hres
    have hm : jsToLower (jsTrim name) ∉ RESERVED_KEYWORDS := by simpa using hres
    unfold replaceReservedKeywordsFromProjection
    rw [hsplit]
    simp [joinSep, hm]

/-- C8 witness: the general projection clauses applied at the reserved
name `STATUS` and the unreserved name `email`. -/
theorem reservedAlias_behaviour_witness :
    replaceReservedKeywordsFromProjection "STATUS" = "#STATUS"
    ∧ replaceReservedKeywordsFromProjection "email" = "email" :=
  ⟨reservedAlias_behaviour.1 "STATUS" (by rfl) (by rfl),
   reservedAlias_behaviour.2.1 "email" (by rfl) (by rfl)⟩

theorem digitChar_toNat {d : Nat} (h : d < 10) : (digitChar d).toNat = 48 + d := by
  interval_cases d <;> decide

theorem digitsToNat_append_single (ds : List Char) (c : Char) :
    digitsToNat (ds ++ [c]) = digitsToNat ds * 10 + (c.toNat - 48) := by
  unfold digitsToNat
  rw [List.foldl_append]
  rfl

theorem serNatAux_ne_nil {fuel n : Nat} (h : n < fuel) : serNatAux fuel n ≠ [] := by
  cases fuel with
  | zero => omega
  | succ fuel =>
    unfold serNatAux
    by_cases h10 : n < 10
    · simp [h10]
    · simp [h10]

theorem digitsToNat_serNatAux {fuel n : Nat} (h : n < fuel) :
    digitsToNat (serNatAux fuel n) = n := by
  induction fuel generalizing n with
  | zero => omega
  | succ fuel ih =>
    unfold serNatAux
    by_cases h10 : n < 10
    · rw [if_pos h10]
      unfold digitsToNat
      simp [digitChar_toNat h10]
    · rw [if_neg h10]
      rw [digitsToNat_append_single]
      have hdiv : n / 10 < fuel := by
        have h1 : n / 10 < n := Nat.div_lt_self (by omega) (by omega)
        omega
      rw [ih hdiv, digitChar_toNat (Nat.mod_lt n (by omega))]
      omega

theorem digitsToNat_serNat (n : Nat) : digitsToNat (serNat n) = n :=
  digitsToNat_serNatAux (Nat.lt_succ_self n)

theorem serNat_inj : Function.Injective serNat := by
  intro a b h
  have := congrArg digitsToNat h
  rwa [digitsToNat_serNat, digitsToNat_serNat] at this

theorem serNat_ne_nil (n : Nat) : serNat n ≠ [] :=
  serNatAux_ne_nil (Nat.lt_succ_self n)

theorem mkAttrKey_inj (f : String) : Function.Injective (mkAttrKey f) := by
  intro a b h
  have hlen : ∀ {x y : String}, x = y → x.data.length = y.data.length := by
    intro x y hxy; rw [hxy]
  cases a with
  | zero =>
    cases b with
    | zero => rfl
    | succ b =>
      exfalso
      have := hlen h
      simp only [mkAttrKey, String.data_append] at this
      have hne := serNat_ne_nil (b + 1)
      have : (String.mk (serNat (b + 1))).data.length ≥ 1 := by
        cases hsn : serNat (b + 1) with
        | nil => exact absurd hsn hne
        | cons c cs => simp [hsn]
      simp only [mkAttrKey, String.data_append] at h
      have h2 := congrArg List.length (congrArg String.data h)
      simp only [String.data_append, List.length_append] at h2
      have h3 : (String.mk (serNat (b + 1))).data.length = (serNat (b + 1)).length := rfl
      have h4 : ("_update_" : String).data.length = 8 := by decide
      omega
  | succ a =>
    cases b with
    | zero =>
      exfalso
      have h2 := congrArg List.length (congrArg String.data h)
      simp only [mkAttrKey, String.data_append, List.length_append] at h2
      have hne := serNat_ne_nil (a + 1)
      have h3 : (String.mk (serNat (a + 1))).data.length = (serNat (a + 1)).length := rfl
      have h5 : (serNat (a + 1)).length ≥ 1 := by
        cases hsn : serNat (a + 1) with
        | nil => exact absurd hsn hne
        | cons c cs => simp [hsn]
      have h4 : ("_update_" : String).data.length = 8 := by decide
      omega
    | succ b =>
      have h2 := congrArg String.data h
      simp only [mkAttrKey, String.data_append] at h2
      have h5 := List.append_cancel_left h2
      have := serNat_inj h5
      omega

theorem lookupA_isSome_mem {α : Type} (m : List (String × α)) (k : String)
    (h : (lookupA m k).isSome = true) : k ∈ m.map Prod.fst := by
  unfold lookupA at h
  rcases hf : m.find? (fun e => e.1 == k) with _ | e
  · rw [hf] at h; simp at h
  · have h1 : e.1 = k := by simpa using List.find?_some hf
    have h2 := List.mem_of_find?_eq_some hf
    exact List.mem_map.mpr ⟨e, h2, h1⟩

theorem busy_le_length (merged : List (String × Val)) (f : String) (n : Nat)
    (hbusy : ∀ m < n, (lookupA merged (mkAttrKey f m)).isSome = true) :
    n ≤ merged.length := by
  classical
  have hsub : (Finset.range n).image (mkAttrKey f) ⊆ (merged.map Prod.fst).toFinset := by
    intro k hk
    rcases Finset.mem_image.mp hk with ⟨m, hm, rfl⟩
    exact List.mem_toFinset.mpr
      (lookupA_isSome_mem _ _ (hbusy m (Finset.mem_range.mp hm)))
  have hcard := Finset.card_le_card hsub
  rw [Finset.card_image_of_injOn (Set.injOn_of_injective (mkAttrKey_inj f))] at hcard
  calc n = (Finset.range n).card := (Finset.card_range n).symm
    _ ≤ (merged.map Prod.fst).toFinset.card := hcard
    _ ≤ (merged.map Prod.fst).length := List.toFinset_card_le _
    _ = merged.length := List.length_map _ _

theorem resolveAttributeKey_spec (merged : List (String × Val)) (f : String)
    (n : Nat) :
    ∀ (fuel c : Nat),
    lookupA merged (mkAttrKey f n) = none →
    (∀ m, c ≤ m → m < n → (lookupA merged (mkAttrKey f m)).isSome = true) →
    c ≤ n → n - c < fuel →
    resolveAttributeKey merged f fuel c = mkAttrKey f n := by
  intro fuel
  induction fuel with
  | zero => intro c _ _ _ hfuel; omega
  | succ fuel ih =>
    intro c hfree hbusy hc hfuel
    unfold resolveAttributeKey
    by_cases hcn : c = n
    · subst hcn
      rw [hfree]
      rfl
    · have hb := hbusy c le_rfl (by omega)
      rw [hb]
      simp only [if_true]
      exact ih (c + 1) hfree (fun m h1 h2 => hbusy m (by omega) h2) (by omega) (by omega)

/-- The loop lands on the first candidate free in the externally-supplied
value map. -/
theorem genKey_spec (merged : List (String × Val)) (f : String) (n : Nat)
    (hfree : lookupA merged (mkAttrKey f n) = none)
    (hbusy : ∀ m < n, (lookupA merged (mkAttrKey f m)).isSome = true) :
    genKey merged f = mkAttrKey f n := by
  have hn := busy_le_length merged f n hbusy
  exact resolveAttributeKey_spec merged f n (merged.length + 1) 0 hfree
    (fun m _ h2 => hbusy m h2) (Nat.zero_le n) (by omega)

theorem buildUpdateParts_fst (merged : List (String × Val)) (item : List (String × Val)) :
    (buildUpdateParts merged item).1 =
      item.map (fun fv => fv.1 ++ " = " ++ genKey merged fv.1) := by
  suffices hgen : ∀ (acc : List String × List (String × Val)),
      (item.foldl (fun acc fv =>
        (acc.1 ++ [fv.1 ++ " = " ++ genKey merged fv.1],
         setKey acc.2 (genKey merged fv.1) fv.2)) acc).1 =
        acc.1 ++ item.map (fun fv => fv.1 ++ " = " ++ genKey merged fv.1) by
    have := hgen ([], [])
    simpa [buildUpdateParts, genKey] using this
  induction item with
  | nil => intro acc; simp
  | cons fv rest ih =>
    intro acc
    simp only [List.foldl_cons, List.map_cons]
    rw [ih]
    simp

theorem buildUpdateParts_snd (merged : List (String × Val)) (item : List (String × Val)) :
    (buildUpdateParts merged item).2 =
      item.foldl (fun d fv => setKey d (genKey merged fv.1) fv.2) [] := by
  suffices hgen : ∀ (acc : List String × List (String × Val)),
      (item.foldl (fun acc fv =>
        (acc.1 ++ [fv.1 ++ " = " ++ genKey merged fv.1],
         setKey acc.2 (genKey merged fv.1) fv.2)) acc).2 =
        item.foldl (fun d fv => setKey d (genKey merged fv.1) fv.2) acc.2 by
    have := hgen ([], [])
    simpa [buildUpdateParts, genKey] using this
  induction item with
  | nil => intro acc; simp
  | cons fv rest ih =>
    intro acc
    simp only [List.foldl_cons]
    rw [ih]

theorem find?_map_set {α : Type} (m : List (String × α)) (k : String) (v : α) (e0 : String × α)
    (h : m.find? (fun e => e.1 == k) = some e0) :
    (m.map (fun e => if e.1 == k then (k, v) else e)).find? (fun e => e.1 == k) = some (k, v) := by
  induction m with
  | nil => cases h
  | cons a m ih =>
    by_cases ha : (a.1 == k) = true
    · simp only [List.map_cons, if_pos ha, List.find?_cons, beq_self_eq_true]
    · have ha' : (a.1 == k) = false := by simpa using ha
      rw [List.find?_cons] at h
      rw [ha'] at h
      simp only [List.map_cons, List.find?_cons, ha', Bool.false_eq_true, if_false]
      exact ih h

theorem find?_map_ne {α : Type} (m : List (String × α)) (k k' : String) (v : α)
    (hne : k' ≠ k) :
    (m.map (fun e => if e.1 == k then (k, v) else e)).find? (fun e => e.1 == k') =
      m.find? (fun e => e.1 == k') := by
  induction m with
  | nil => rfl
  | cons a m ih =>
    by_cases ha : (a.1 == k) = true
    · have ha' : a.1 = k := by simpa using ha
      have h1 : ((k, v).1 == k') = false := beq_eq_false_iff_ne.mpr (Ne.symm hne)
      have h2 : (a.1 == k') = false := by
        rw [ha']; exact beq_eq_false_iff_ne.mpr (Ne.symm hne)
      simp only [List.map_cons, if_pos ha, List.find?_cons, h1, h2]
      exact ih
    · simp only [List.map_cons, if_neg ha, List.find?_cons]
      cases hpa : (a.1 == k') with
      | true => rfl
      | false => exact ih

theorem lookupA_setKey_self {α : Type} (m : List (String × α)) (k : String) (v : α) :
    lookupA (setKey m k v) k = some v := by
  unfold setKey
  by_cases hsome : (lookupA m k).isSome
  · rw [if_pos hsome]
    unfold lookupA at hsome ⊢
    rcases hf : m.find? (fun e => e.1 == k) with _ | e0
    · rw [hf] at hsome; simp at hsome
    · rw [find?_map_set m k v e0 hf]
  · rw [if_neg hsome]
    unfold lookupA at hsome ⊢
    rcases hf : m.find? (fun e => e.1 == k) with _ | e0
    · rw [List.find?_append, hf]
      simp
    · rw [hf] at hsome; simp at hsome

theorem lookupA_setKey_ne {α : Type} (m : List (String × α)) (k k' : String) (v : α)
    (hne : k' ≠ k) :
    lookupA (setKey m k v) k' = lookupA m k' := by
  unfold setKey
  by_cases hsome : (lookupA m k).isSome
  · rw [if_pos hsome]
    unfold lookupA
    rw [find?_map_ne m k k' v hne]
  · rw [if_neg hsome]
    unfold lookupA
    rw [List.find?_append]
    have h2 : (([(k, v)] : List (String × α)).find? (fun e => e.1 == k')) = none := by
      simp only [List.find?_cons, List.find?_nil]
      rw [show (((k, v) : String × α).1 == k') = false from beq_eq_false_iff_ne.mpr (Ne.symm hne)]
    rw [h2]
    cases m.find? (fun e => e.1 == k') <;> rfl

theorem lookupA_fold_set_skip (merged : List (String × Val)) (l : List (String × Val))
    (k : String) (d0 : List (String × Val))
    (hskip : ∀ fv ∈ l, genKey merged fv.1 ≠ k) :
    lookupA (l.foldl (fun d fv => setKey d (genKey merged fv.1) fv.2) d0) k = lookupA d0 k := by
  induction l generalizing d0 with
  | nil => rfl
  | cons fv rest ih =>
    rw [List.foldl_cons]
    rw [ih _ (fun e he => hskip e (List.mem_cons_of_mem _ he))]
    exact lookupA_setKey_ne _ _ _ _ (fun h => hskip fv (List.mem_cons_self _ _) h.symm)

/-- C6 (amended): for a field of the partial entity whose first collision-
free candidate placeholder is the `n`-th one (under the candidate sequence
`:field`, `:field_update_1`, `:field_update_2`, …, checked against the
externally-supplied value map), the generated placeholder is exactly that
candidate, the SET clause contains the assignment `field = placeholder`,
and the dynamic value object binds the placeholder to the field's value —
provided no later entity field generates the same placeholder (a later
generation overwrites the binding, which the counterexample exhibits). -/
theorem update_generation_collision (merged : List (String × Val))
    (pre post : List (String × Val)) (f : String) (v : Val) (n : Nat)
    (hfree : lookupA merged (mkAttrKey f n) = none)
    (hbusy : ∀ m < n, (lookupA merged (mkAttrKey f m)).isSome = true)
    (hpost : ∀ fv ∈ post, genKey merged fv.1 ≠ mkAttrKey f n) :
    genKey merged f = mkAttrKey f n
    ∧ (f ++ " = " ++ mkAttrKey f n) ∈ (buildUpdateParts merged (pre ++ (f, v) :: post)).1
    ∧ lookupA (buildUpdateParts merged (pre ++ (f, v) :: post)).2 (mkAttrKey f n) = some v := by
  have hkey : genKey merged f = mkAttrKey f n := genKey_spec merged f n hfree hbusy
  refine ⟨hkey, ?_, ?_⟩
  · rw [buildUpdateParts_fst]
    rw [← hkey]
    exact List.mem_map.mpr ⟨(f, v), by simp, rfl⟩
  · rw [buildUpdateParts_snd]
    rw [List.foldl_append, List.foldl_cons]
    rw [lookupA_fold_set_skip merged post _ _ hpost]
    rw [hkey]
    exact lookupA_setKey_self _ _ _

/-- C6 witness: the theorem applied at the spec's concrete example —
entity field `email` whose nominal placeholder `:email` is already bound
in the externally-supplied value map; the generated placeholder is
`:email_update_1`. -/
theorem update_generation_collision_witness :
    genKey [(":email", Val.vNum 0)] "email" = ":email_update_1"
    ∧ ("email" ++ " = " ++ ":email_update_1") ∈
        (buildUpdateParts [(":email", Val.vNum 0)] [("email", Val.vStr "x")]).1
    ∧ lookupA (buildUpdateParts [(":email", Val.vNum 0)] [("email", Val.vStr "x")]).2
        ":email_update_1" = some (Val.vStr "x") := by
  have h := update_generation_collision [(":email", Val.vNum 0)] [] [] "email" (Val.vStr "x") 1
    (by decide) (by decide) (by intro fv h; cases h)
  have hk : mkAttrKey "email" 1 = ":email_update_1" := by decide
  rw [hk] at h
  exact h

/-- C6 counterexample: with external value map `{":a": 0}` and entity
`{a: 1, a_update_1: 2}`, field `a`'s generated placeholder is
`:a_update_1` (the smallest collision-free candidate) and the SET clause
contains `a = :a_update_1`, yet the later field `a_update_1` generates
the same placeholder and overwrites the binding: the placeholder ends up
mapped to `2`, not to field `a`'s value `1` — refuting the claim that the
placeholder maps to the field's value. -/
theorem update_generation_collision_cex :
    genKey [(":a", Val.vNum 0)] "a" = ":a_update_1"
    ∧ (buildUpdateParts [(":a", Val.vNum 0)]
        [("a", Val.vNum 1), ("a_update_1", Val.vNum 2)]).1 =
        ["a = :a_update_1", "a_update_1 = :a_update_1"]
    ∧ lookupA (buildUpdateParts [(":a", Val.vNum 0)]
        [("a", Val.vNum 1), ("a_update_1", Val.vNum 2)]).2 ":a_update_1" =
        some (Val.vNum 2)
    ∧ (buildUpdateCommandInput
        { item := some [("a", Val.vNum 1), ("a_update_1", Val.vNum 2)],
          updateExpression := none,
          expressionAttributeNames := [], extraExpAttributeNames := [],
          expressionAttributeValues := [(":a", Val.vNum 0)],
          extraExpressionAttributeValues := [] }).toOption.map
        (fun c => lookupA (c.expressionAttributeValues.getD []) ":a_update_1") =
        some (some (Val.vNum 2))
    ∧ Val.vNum 2 ≠ Val.vNum 1 := by
  refine ⟨by decide, by decide, by decide, by decide, by decide⟩

theorem mem_keys_of_getQS (qp : List (String × Option String)) (k : String) (v : String)
    (h : getQS qp k = some v) : k ∈ qp.map Prod.fst := by
  unfold getQS at h
  rcases hf : qp.find? (fun e => e.1 == k) with _ | e
  · rw [hf] at h; cases h
  · have h1 : e.1 = k := by simpa using List.find?_some hf
    exact List.mem_map.mpr ⟨e, List.mem_of_find?_eq_some hf, h1⟩

theorem truthy_getQS_mem (qp : List (String × Option String)) (k : String)
    (h : truthyS (getQS qp k) = true) : k ∈ qp.map Prod.fst := by
  rcases hg : getQS qp k with _ | s
  · rw [hg] at h; cases h
  · exact mem_keys_of_getQS qp k s hg

/-- C9: whenever the (normalized) raw query parameters name an index equal
to the default request's index and supply no non-empty partition-key
value, the validated result inherits the default's partition-key value,
type and property name exactly, while the sort-key, range, comparator,
pagination and sorting fields come from the raw parameters when present
and fall back to the default's values otherwise (the limit falling back
further to `"20"` when both are absent). -/
theorem validator_case3 (raw : List (String × String)) (query : QueryReq)
    (idx : String) (r : QueryReq)
    (hidx : getQS (normalizeQS raw) "index" = some idx)
    (hqidx : query.indexName = some idx)
    (hnopk : hasNonEmptyPKey (normalizeQS raw) = false)
    (hok : extractQueryParamsFromEvent (some raw) query = .ok r) :
    r.pKey = query.pKey ∧ r.pKeyType = query.pKeyType ∧ r.pKeyProp = query.pKeyProp
    ∧ r.indexName = query.indexName
    ∧ r.sKey = (getQS (normalizeQS raw) "sKey").orElse (fun _ => query.sKey)
    ∧ r.sKeyType = (getQS (normalizeQS raw) "sKeyType").orElse (fun _ => query.sKeyType)
    ∧ r.sKeyProp = (getQS (normalizeQS raw) "sKeyProp").orElse (fun _ => query.sKeyProp)
    ∧ r.skValue2 = (getQS (normalizeQS raw) "skValue2").orElse (fun _ => query.skValue2)
    ∧ r.skValue2Type =
        (getQS (normalizeQS raw) "skValue2Type").orElse (fun _ => query.skValue2Type)
    ∧ r.skComparator =
        (getQS (normalizeQS raw) "skComparator").orElse (fun _ => query.skComparator)
    ∧ r.lastEvaluatedKey =
        (getQS (normalizeQS raw) "lastEvaluatedKey").orElse (fun _ => query.lastEvaluatedKey)
    ∧ r.sorting = (getQS (normalizeQS raw) "sorting").orElse (fun _ => query.sorting)
    ∧ r.limit = ((getQS (normalizeQS raw) "limit").orElse
        (fun _ => query.limit)).orElse (fun _ => some "20") := by
  have hqp : normalizeQS raw = normalizeQS raw := rfl
  generalize hqp2 : normalizeQS raw = qp at hidx hnopk
  have hmemidx : "index" ∈ qp.map Prod.fst := mem_keys_of_getQS qp "index" idx hidx
  have hlen : qp.length ≠ 0 := by
    intro h0
    rw [List.eq_nil_of_length_eq_zero h0] at hmemidx
    cases hmemidx
  have hdistinct : ∀ k0 : String, k0 = "limit" ∨ k0 = "sorting" →
      truthyS (getQS qp k0) = true → (qp.map Prod.fst).length ≠ 1 := by
    intro k0 hk0 ht h1
    rcases List.length_eq_one.mp h1 with ⟨x, hx⟩
    have hmi := hmemidx
    rw [hx] at hmi
    have hmk := truthy_getQS_mem qp k0 ht
    rw [hx] at hmk
    have hxi : "index" = x := by simpa using hmi
    have hxk : k0 = x := by simpa using hmk
    rcases hk0 with rfl | rfl
    · exact absurd (hxi.trans hxk.symm) (by decide)
    · exact absurd (hxi.trans hxk.symm) (by decide)
  have honly : isOnlyLimitOrSorting qp = false := by
    rcases h : isOnlyLimitOrSorting qp with _ | _
    · rfl
    · exfalso
      unfold isOnlyLimitOrSorting at h
      rw [Bool.or_eq_true, Bool.and_eq_true, Bool.and_eq_true, Bool.and_eq_true,
        Bool.or_eq_true] at h
      rcases h with ⟨h1, hls⟩ | ⟨⟨h2, hl⟩, hs⟩
      · have h1' : (qp.map Prod.fst).length = 1 := by simpa using h1
        rcases hls with hl | hs
        · exact hdistinct "limit" (Or.inl rfl) hl h1'
        · exact hdistinct "sorting" (Or.inr rfl) hs h1'
      · have h2' : (qp.map Prod.fst).length = 2 := by simpa using h2
        have hmL := truthy_getQS_mem qp "limit" hl
        have hmS := truthy_getQS_mem qp "sorting" hs
        classical
        have hsub : ({"index", "limit", "sorting"} : Finset String) ⊆
            (qp.map Prod.fst).toFinset := by
          intro a ha
          simp only [Finset.mem_insert, Finset.mem_singleton] at ha
          rcases ha with rfl | rfl | rfl
          · exact List.mem_toFinset.mpr hmemidx
          · exact List.mem_toFinset.mpr hmL
          · exact List.mem_toFinset.mpr hmS
        have hcard3 : ({"index", "limit", "sorting"} : Finset String).card = 3 := by decide
        have hle := Finset.card_le_card hsub
        rw [hcard3] at hle
        have hle2 := List.toFinset_card_le (qp.map Prod.fst)
        omega
  have hc3 : (!hasNonEmptyPKey qp && (getQS qp "index" == query.indexName)) = true := by
    rw [hnopk, hidx, hqidx]
    simp
  simp only [extractQueryParamsFromEvent, Option.getD_some, hqp2] at hok
  rw [if_neg hlen, if_neg (by rw [honly]; exact Bool.false_ne_true), if_pos hc3] at hok
  unfold parseOrThrow at hok
  split at hok
  · have hr := except_ok_inj hok
    subst hr
    unfold case3Candidate
    refine ⟨rfl, rfl, rfl, rfl, rfl, rfl, rfl, rfl, rfl, rfl, rfl, rfl, rfl⟩
  · cases hok

/-- C9 witness: the theorem applied to a concrete event whose parameters
name only the default's index and a sort key. -/
theorem validator_case3_witness :
    extractQueryParamsFromEvent (some [("index", "gsi1"), ("sKey", "ORDER")]) c9Default =
      .ok c9Result
    ∧ c9Result.pKey = c9Default.pKey ∧ c9Result.limit = some "20" := by
  have hext : extractQueryParamsFromEvent (some [("index", "gsi1"), ("sKey", "ORDER")])
      c9Default = .ok c9Result := by decide
  have h := validator_case3 [("index", "gsi1"), ("sKey", "ORDER")] c9Default "gsi1" c9Result
    (by decide) (by decide) (by decide) hext
  exact ⟨hext, h.1, by decide⟩

/-! ## Claim C1: cursor codec round trip -/

theorem parseStringBody_quote (rest : List Char) :
    parseStringBody ('"' :: rest) = some ([], rest) := by
  unfold parseStringBody
  rw [if_pos rfl]

theorem parseStringBody_escape (c : Char) (rest : List Char) (hq : c = '"' ∨ c = '\\') :
    parseStringBody ('\\' :: c :: rest) =
      match parseStringBody rest with
      | some (cs, r) => some (c :: cs, r)
      | none => none := by
  conv_lhs => unfold parseStringBody
  rw [if_neg (by decide : ¬('\\' : Char) = '"'), if_pos rfl]
  change (if c = '"' ∨ c = '\\' then
      match parseStringBody rest with
      | some (cs, r) => some (c :: cs, r)
      | none => none
    else none) = _
  rw [if_pos hq]

theorem parseStringBody_raw (c : Char) (rest : List Char)
    (h1 : c ≠ '"') (h2 : c ≠ '\\') (h3 : ¬(c.toNat < 32)) :
    parseStringBody (c :: rest) =
      match parseStringBody rest with
      | some (cs, r) => some (c :: cs, r)
      | none => none := by
  conv_lhs => unfold parseStringBody
  rw [if_neg h1, if_neg h2, if_neg h3]

theorem parseStringBody_ser (cs : List Char) (rest : List Char)
    (h : ∀ c ∈ cs, 32 ≤ c.toNat) :
    parseStringBody (escList cs ++ ('"' :: rest)) = some (cs, rest) := by
  induction cs with
  | nil =>
    simp only [escList, List.nil_append]
    exact parseStringBody_quote rest
  | cons c cs ih =>
    have hcs : ∀ x ∈ cs, 32 ≤ x.toNat := fun x hx => h x (List.mem_cons_of_mem _ hx)
    have hc : 32 ≤ c.toNat := h c (List.mem_cons_self _ _)
    by_cases hq : c = '"' ∨ c = '\\'
    · simp only [escList, escChar, if_pos hq, List.cons_append, List.nil_append,
        List.append_assoc]
      rw [parseStringBody_escape c _ hq, ih hcs]
    · push_neg at hq
      simp only [escList, escChar, if_neg (by tauto : ¬(c = '"' ∨ c = '\\')),
        List.cons_append, List.nil_append]
      rw [parseStringBody_raw c _ hq.1 hq.2 (by omega), ih hcs]

theorem digitChar_isDigit {d : Nat} (h : d < 10) : (digitChar d).isDigit = true := by
  interval_cases d <;> decide

theorem serNatAux_digits {fuel n : Nat} (h : n < fuel) :
    ∀ c ∈ serNatAux fuel n, c.isDigit = true := by
  induction fuel generalizing n with
  | zero => omega
  | succ fuel ih =>
    intro c hc
    unfold serNatAux at hc
    by_cases h10 : n < 10
    · rw [if_pos h10] at hc
      have hcd : c = digitChar n := by simpa using hc
      rw [hcd]
      exact digitChar_isDigit h10
    · rw [if_neg h10] at hc
      rcases List.mem_append.mp hc with hm | hm
      · have hdiv : n / 10 < fuel := by
          have := Nat.div_lt_self (show 0 < n by omega) (show 1 < 10 by omega)
          omega
        exact ih hdiv c hm
      · have hcd : c = digitChar (n % 10) := by simpa using hm
        rw [hcd]
        exact digitChar_isDigit (Nat.mod_lt n (by omega))

theorem serNat_digits (n : Nat) : ∀ c ∈ serNat n, c.isDigit = true :=
  serNatAux_digits (Nat.lt_succ_self n)


theorem takeDigits_spec (ds rest : List Char)
    (hds : ∀ c ∈ ds, c.isDigit = true) (hrest : headNotDigit rest = true) :
    takeDigits (ds ++ rest) = (ds, rest) := by
  induction ds with
  | nil =>
    cases rest with
    | nil => rfl
    | cons c r =>
      have hc : c.isDigit = false := by simpa [headNotDigit] using hrest
      simp only [List.nil_append]
      unfold takeDigits
      rw [hc]
      rfl
  | cons d ds ih =>
    have hd : d.isDigit = true := hds d (List.mem_cons_self _ _)
    have hds' : ∀ c ∈ ds, c.isDigit = true := fun c hc => hds c (List.mem_cons_of_mem _ hc)
    simp only [List.cons_append]
    unfold takeDigits
    rw [hd, ih hds']
    rfl

theorem digit_ne_dash {c : Char} (h : c.isDigit = true) : ¬c = '-' := by
  intro hc
  rw [hc] at h
  exact absurd h (by decide)

theorem parseNum_ser (i : Int) (rest : List Char) (hrest : headNotDigit rest = true) :
    parseNum (serInt i ++ rest) = some (i, rest) := by
  cases i with
  | ofNat n =>
    have hne := serNat_ne_nil n
    have hdig := serNat_digits n
    obtain ⟨d, ds, hsn⟩ : ∃ d ds, serNat n = d :: ds := by
      cases hsn : serNat n with
      | nil => exact absurd hsn hne
      | cons d ds => exact ⟨d, ds, rfl⟩
    have hd : d.isDigit = true := hdig d (by rw [hsn]; exact List.mem_cons_self _ _)
    unfold parseNum
    rw [if_neg ?hneg]
    case hneg =>
      show ¬(serInt (Int.ofNat n) ++ rest).head? = some '-'
      simp only [serInt, hsn, List.cons_append, List.head?_cons, Option.some.injEq]
      exact digit_ne_dash hd
    have htd : takeDigits (serInt (Int.ofNat n) ++ rest) = (serNat n, rest) :=
      takeDigits_spec _ _ hdig hrest
    rw [htd]
    rw [if_neg (by rw [hsn]; simp)]
    have hval : ((digitsToNat (serNat n) : Nat) : Int) = Int.ofNat n := by
      rw [digitsToNat_serNat]
      rfl
    rw [hval]
  | negSucc n =>
    have hd1 : serInt (Int.negSucc n) ++ rest = '-' :: (serNat (n + 1) ++ rest) := by
      simp [serInt]
    rw [hd1]
    unfold parseNum
    rw [if_pos (by simp)]
    have htd : takeDigits (('-' :: (serNat (n + 1) ++ rest)).tail) = (serNat (n + 1), rest) := by
      simp only [List.tail_cons]
      exact takeDigits_spec _ _ (serNat_digits (n + 1)) hrest
    rw [htd]
    rw [if_neg (by simpa using serNat_ne_nil (n + 1))]
    have hval : -((digitsToNat (serNat (n + 1)) : Nat) : Int) = Int.negSucc n := by
      rw [digitsToNat_serNat]
      simp [Int.negSucc_eq]
    rw [hval]

theorem isDigit_excl {c : Char} (h : c.isDigit = true) :
    c ≠ '"' ∧ c ≠ 't' ∧ c ≠ 'f' ∧ c ≠ 'n' := by
  refine ⟨?_, ?_, ?_, ?_⟩ <;> (intro hc; rw [hc] at h; exact absurd h (by decide))

theorem take_cons_head {l : List Char} {k : Nat} {c : Char} {cs : List Char}
    (h : l.take (k + 1) = c :: cs) : l.head? = some c := by
  cases l with
  | nil => simp at h
  | cons a t =>
    simp only [List.take_succ_cons, List.cons.injEq] at h
    simp [h.1]

theorem mk_data (s : String) : String.mk s.data = s := rfl

theorem parseVal_ser (v : Val) (rest : List Char) (hv : ValidVal v)
    (hrest : headNotDigit rest = true) :
    parseVal (serVal v ++ rest) = some (v, rest) := by
  cases v with
  | vStr s =>
    unfold parseVal
    have h1 : serVal (Val.vStr s) ++ rest =
        '"' :: (escList s.data ++ ('"' :: rest)) := by
      simp [serVal, serStr]
    rw [h1]
    simp only [List.head?_cons, List.tail_cons, Option.some.injEq]
    rw [if_pos trivial]
    rw [parseStringBody_ser s.data rest hv]
  | vNum i =>
    obtain ⟨d, t, hdt, hd⟩ : ∃ d t, serInt i ++ rest = d :: t ∧ (d.isDigit = true ∨ d = '-') := by
      cases i with
      | ofNat n =>
        obtain ⟨d, ds, hsn⟩ : ∃ d ds, serNat n = d :: ds := by
          cases hsn : serNat n with
          | nil => exact absurd hsn (serNat_ne_nil n)
          | cons d ds => exact ⟨d, ds, rfl⟩
        refine ⟨d, ds ++ rest, ?_,
          Or.inl (serNat_digits n d (by rw [hsn]; exact List.mem_cons_self _ _))⟩
        simp [serInt, hsn]
      | negSucc n => exact ⟨'-', serNat (n + 1) ++ rest, by simp [serInt], Or.inr rfl⟩
    have hdq : d ≠ '"' ∧ d ≠ 't' ∧ d ≠ 'f' ∧ d ≠ 'n' := by
      rcases hd with hdig | hdash
      · exact isDigit_excl hdig
      · rw [hdash]
        refine ⟨by decide, by decide, by decide, by decide⟩
    have hsv : serVal (Val.vNum i) = serInt i := rfl
    unfold parseVal
    rw [hsv]
    have hq1 : ¬(serInt i ++ rest).head? = some '"' := by
      rw [hdt]
      simp only [List.head?_cons, Option.some.injEq]
      exact hdq.1
    have hq2 : ¬(serInt i ++ rest).take 4 = ['t', 'r', 'u', 'e'] := by
      rw [hdt]
      intro hcon
      exact hdq.2.1 (by simpa using take_cons_head hcon)
    have hq3 : ¬(serInt i ++ rest).take 5 = ['f', 'a', 'l', 's', 'e'] := by
      rw [hdt]
      intro hcon
      exact hdq.2.2.1 (by simpa using take_cons_head hcon)
    have hq4 : ¬(serInt i ++ rest).take 4 = ['n', 'u', 'l', 'l'] := by
      rw [hdt]
      intro hcon
      exact hdq.2.2.2 (by simpa using take_cons_head hcon)
    rw [if_neg hq1, if_neg hq2, if_neg hq3, if_neg hq4]
    rw [parseNum_ser i rest hrest]
  | vBool b =>
    cases b with
    | true =>
      show parseVal (['t', 'r', 'u', 'e'] ++ rest) = some (Val.vBool true, rest)
      unfold parseVal
      rw [if_neg (by simp)]
      rw [if_pos (by simp)]
      simp
    | false =>
      show parseVal (['f', 'a', 'l', 's', 'e'] ++ rest) = some (Val.vBool false, rest)
      unfold parseVal
      rw [if_neg (by simp)]
      rw [if_neg (by simp)]
      rw [if_pos (by simp)]
      simp
  | vNull =>
    show parseVal (['n', 'u', 'l', 'l'] ++ rest) = some (Val.vNull, rest)
    unfold parseVal
    rw [if_neg (by simp)]
    rw [if_neg (by simp)]
    rw [if_neg (by simp)]
    rw [if_pos (by simp)]
    simp

theorem parseEntry_ser (k : String) (v : Val) (rest : List Char)
    (hk : CtlFree k) (hv : ValidVal v) (hrest : headNotDigit rest = true) :
    parseEntry (serStr k ++ ':' :: (serVal v ++ rest)) = some ((k, v), rest) := by
  unfold parseEntry
  have h1 : serStr k ++ ':' :: (serVal v ++ rest) =
      '"' :: (escList k.data ++ ('"' :: (':' :: (serVal v ++ rest)))) := by
    simp [serStr]
  rw [h1]
  simp only [List.head?_cons, List.tail_cons, Option.some.injEq]
  rw [if_pos trivial]
  rw [parseStringBody_ser k.data _ hk]
  simp only [List.head?_cons, List.tail_cons, Option.some.injEq]
  rw [if_pos trivial]
  rw [parseVal_ser v rest hv hrest]


theorem parseEntriesAux_ser (m : KeyMap) :
    ∀ (fuel : Nat) (rest : List Char), m ≠ [] → m.length ≤ fuel → ValidEntries m →
    parseEntriesAux fuel (serEntries m ++ rbrace :: rest) = some (m, rest) := by
  induction m with
  | nil => intro fuel rest hne _ _; exact absurd rfl hne
  | cons e m ih =>
    intro fuel rest _ hfuel hval
    obtain ⟨k, v⟩ := e
    have hkv := hval (k, v) (List.mem_cons_self _ _)
    cases fuel with
    | zero => simp at hfuel
    | succ fuel =>
      cases m with
      | nil =>
        have hse : serEntries [(k, v)] ++ rbrace :: rest =
            serStr k ++ ':' :: (serVal v ++ (rbrace :: rest)) := by
          simp [serEntries]
        unfold parseEntriesAux
        rw [hse]
        rw [parseEntry_ser k v (rbrace :: rest) hkv.1 hkv.2 (by rfl)]
        simp only [List.head?_cons, List.tail_cons, Option.some.injEq]
        rw [if_neg (by decide), if_pos trivial]
      | cons e2 m2 =>
        have hse : serEntries ((k, v) :: e2 :: m2) ++ rbrace :: rest =
            serStr k ++ ':' :: (serVal v ++ (',' :: (serEntries (e2 :: m2) ++ rbrace :: rest))) := by
          simp [serEntries]
        unfold parseEntriesAux
        rw [hse]
        rw [parseEntry_ser k v _ hkv.1 hkv.2 (by rfl)]
        simp only [List.head?_cons, List.tail_cons, Option.some.injEq]
        rw [if_pos trivial]
        rw [ih fuel rest (by simp) (by simpa using hfuel)
          (fun x hx => hval x (List.mem_cons_of_mem _ hx))]

theorem serEntries_length_ge (m : KeyMap) : m.length ≤ (serEntries m).length := by
  induction m with
  | nil => simp [serEntries]
  | cons e m ih =>
    obtain ⟨k, v⟩ := e
    cases m with
    | nil => simp [serEntries, serStr]
    | cons e2 m2 =>
      have h1 : serEntries ((k, v) :: e2 :: m2) =
          serStr k ++ ':' :: serVal v ++ ',' :: serEntries (e2 :: m2) := rfl
      rw [h1]
      simp only [List.length_cons, List.length_append, serStr]
      simp only [List.length_cons] at ih ⊢
      omega

/-- The decode of an encoded valid key map recovers the map exactly. -/
theorem parseCursor_encodeCursor (m : KeyMap) (h : ValidKeyMap m) :
    parseCursor (encodeCursor m) = some m := by
  have hdata : (encodeCursor m).data = lbrace :: (serEntries m ++ [rbrace]) := rfl
  unfold parseCursor
  rw [hdata]
  simp only [List.head?_cons, List.tail_cons, Option.some.injEq]
  rw [if_pos trivial]
  cases m with
  | nil =>
    simp [serEntries]
  | cons e m2 =>
    obtain ⟨k, v⟩ := e
    have hne : (serEntries ((k, v) :: m2) ++ [rbrace]).head? ≠ some rbrace := by
      have hse : ∃ t, serEntries ((k, v) :: m2) = '"' :: t := by
        cases m2 with
        | nil => exact ⟨_, rfl⟩
        | cons e3 m3 => exact ⟨_, rfl⟩
      obtain ⟨t, ht⟩ := hse
      rw [ht]
      simp only [List.cons_append, List.head?_cons, Option.some.injEq]
      decide
    rw [if_neg hne]
    have hfuel : ((k, v) :: m2).length ≤ (serEntries ((k, v) :: m2) ++ [rbrace]).length := by
      have := serEntries_length_ge ((k, v) :: m2)
      simp only [List.length_append, List.length_cons] at this ⊢
      omega
    have hrw : serEntries ((k, v) :: m2) ++ [rbrace] =
        serEntries ((k, v) :: m2) ++ rbrace :: [] := rfl
    rw [hrw]
    rw [parseEntriesAux_ser ((k, v) :: m2) _ [] (by simp) hfuel h.2]

/-- C1: decoding the cursor produced by encoding a valid key-attribute map
yields exactly that map; decoding an absent or empty cursor yields "no
cursor" (`ExclusiveStartKey` omitted), not an error — `queryRecords`
encodes an absent engine key as the empty string, which the builder maps
back to "no cursor"; and the assembled query command's start key is
exactly the decode of the request's cursor string. -/
theorem cursor_roundtrip (m : KeyMap) (h : ValidKeyMap m) :
    decodeStartKey (some (encodeLastEvaluatedKey (some m))) = .ok (some m)
    ∧ decodeStartKey none = .ok none
    ∧ decodeStartKey (some (encodeLastEvaluatedKey none)) = .ok none
    ∧ (∀ (inp : QueryCmdInput) (cmd : QueryCmd), buildQueryCommandInput inp = .ok cmd →
        decodeStartKey inp.queryRequest.lastEvaluatedKey = .ok cmd.exclusiveStartKey) := by
  refine ⟨?_, rfl, rfl, ?_⟩
  · have hne : (encodeCursor m == "") = false := by
      apply beq_eq_false_iff_ne.mpr
      intro hc
      have := congrArg String.data hc
      simp [encodeCursor] at this
    have he : encodeLastEvaluatedKey (some m) = encodeCursor m := rfl
    unfold decodeStartKey
    rw [he]
    change (if (encodeCursor m == "") = true then Except.ok none
      else match parseCursor (encodeCursor m) with
      | some m => Except.ok (some m)
      | none => Except.error DynErr.cursorError) = Except.ok (some m)
    rw [if_neg (by rw [hne]; exact Bool.false_ne_true)]
    rw [parseCursor_encodeCursor m h]
  · intro inp cmd hok
    unfold buildQueryCommandInput at hok
    split at hok
    · cases hok
    · split at hok
      · cases hok
      · rename_i esk heq
        rw [heq, ← except_ok_inj hok]

/-- C1 witness: the round trip and the empty/absent-cursor cases at a
concrete two-attribute key map. -/
theorem cursor_roundtrip_witness :
    decodeStartKey
        (some (encodeLastEvaluatedKey (some [("pk", Val.vStr "ORG#42"), ("sk", Val.vNum 37)]))) =
      .ok (some [("pk", Val.vStr "ORG#42"), ("sk", Val.vNum 37)])
    ∧ decodeStartKey none = .ok none
    ∧ decodeStartKey (some (encodeLastEvaluatedKey none)) = .ok none :=
  ⟨(cursor_roundtrip [("pk", Val.vStr "ORG#42"), ("sk", Val.vNum 37)] (by decide)).1,
   (cursor_roundtrip [("pk", Val.vStr "ORG#42"), ("sk", Val.vNum 37)] (by decide)).2.1,
   (cursor_roundtrip [("pk", Val.vStr "ORG#42"), ("sk", Val.vNum 37)] (by decide)).2.2.1⟩
